import Mathlib

/-!
Verification of the force-accumulation pipeline of the ESPResSo-style
molecular-dynamics core (`src/core/forces.cpp`) and of the Gay-Berne
parameter setter (`src/core/nonbonded_interactions/gb.cpp`), as a shallow
embedding in Lean.  Machine doubles are modelled as real numbers; the
per-particle state and the per-step pipeline are modelled as explicit
functional data.
-/

namespace Espresso

/-- A 3-component real vector, modelling `Utils::Vector3d`. -/
@[ext] structure Vec3 where
  x : ℝ
  y : ℝ
  z : ℝ

instance : Zero Vec3 := ⟨⟨0, 0, 0⟩⟩
instance : Add Vec3 := ⟨fun a b => ⟨a.x + b.x, a.y + b.y, a.z + b.z⟩⟩
instance : SMul ℝ Vec3 := ⟨fun c a => ⟨c * a.x, c * a.y, c * a.z⟩⟩

@[simp] lemma Vec3.add_x (a b : Vec3) : (a + b).x = a.x + b.x := rfl

@[simp] lemma Vec3.add_y (a b : Vec3) : (a + b).y = a.y + b.y := rfl

@[simp] lemma Vec3.add_z (a b : Vec3) : (a + b).z = a.z + b.z := rfl

@[simp] lemma Vec3.zero_x : (0 : Vec3).x = 0 := rfl

@[simp] lemma Vec3.zero_y : (0 : Vec3).y = 0 := rfl

@[simp] lemma Vec3.zero_z : (0 : Vec3).z = 0 := rfl

@[simp] lemma Vec3.smul_x (c : ℝ) (a : Vec3) : (c • a).x = c * a.x := rfl

@[simp] lemma Vec3.smul_y (c : ℝ) (a : Vec3) : (c • a).y = c * a.y := rfl

@[simp] lemma Vec3.smul_z (c : ℝ) (a : Vec3) : (c • a).z = c * a.z := rfl

instance : AddCommMonoid Vec3 where
  add_assoc a b c := by ext <;> simp [add_assoc]
  zero_add a := by ext <;> simp
  add_zero a := by ext <;> simp
  add_comm a b := by ext <;> simp [add_comm]
  nsmul := nsmulRec

/-- `ParticleForce`: the per-particle force/torque accumulator pair. -/
@[ext] structure ParticleForce where
  f : Vec3
  torque : Vec3

instance : Zero ParticleForce := ⟨⟨0, 0⟩⟩
instance : Add ParticleForce := ⟨fun a b => ⟨a.f + b.f, a.torque + b.torque⟩⟩

@[simp] lemma ParticleForce.add_f (a b : ParticleForce) : (a + b).f = a.f + b.f := rfl

@[simp] lemma ParticleForce.add_torque (a b : ParticleForce) :
    (a + b).torque = a.torque + b.torque := rfl

@[simp] lemma ParticleForce.zero_f : (0 : ParticleForce).f = 0 := rfl

@[simp] lemma ParticleForce.zero_torque : (0 : ParticleForce).torque = 0 := rfl

instance : AddCommMonoid ParticleForce where
  add_assoc a b c := by ext <;> simp [add_assoc]
  zero_add a := by ext <;> simp
  add_zero a := by ext <;> simp
  add_comm a b := by ext <;> simp [add_comm]
  nsmul := nsmulRec

/-- The particle state visible to `forces.cpp`: force/torque accumulators,
kinematic state, external force/torque fields and the swimming (ENGINE)
fields.  The orientation director (`calc_director()`) is carried as a stored
vector since its computation from the quaternion is outside this core. -/
structure Particle where
  pos : Vec3
  v : Vec3
  force : Vec3
  torque : Vec3
  ext_force : Vec3
  ext_torque : Vec3
  swimming : Bool
  is_engine_force_on_fluid : Bool
  f_swim : ℝ
  director : Vec3
  ptype : ℕ

/-- `external_force` from `forces.cpp`: seeds the accumulator with the
per-particle external force/torque and, for a swimmer whose engine force is
not applied to the fluid, the swimming force along the director. -/
noncomputable def external_force (p : Particle) : ParticleForce :=
  { f := p.ext_force +
      (if p.swimming && !p.is_engine_force_on_fluid then p.f_swim • p.director else 0),
    torque := p.ext_torque }

/-- `init_forces_ghosts` from `forces.cpp`: zero every ghost accumulator. -/
def init_forces_ghosts (particles : List Particle) : List Particle :=
  particles.map (fun p => { p with force := 0, torque := 0 })

/-- `init_forces` from `forces.cpp`: set every owned particle's accumulator
to `external_force(p)` and zero every ghost accumulator. -/
noncomputable def init_forces (particles ghost_particles : List Particle) :
    List Particle × List Particle :=
  (particles.map (fun p =>
      { p with force := (external_force p).f, torque := (external_force p).torque }),
   init_forces_ghosts ghost_particles)

/-- `Utils::sqr`. -/
def sqr (x : ℝ) : ℝ := x * x

/-- `Utils::Vector3d::norm2()`: the squared Euclidean norm. -/
def Vec3.norm2 (a : Vec3) : ℝ := a.x ^ 2 + a.y ^ 2 + a.z ^ 2

/-- The Euclidean norm (force magnitude). -/
noncomputable def Vec3.norm (a : Vec3) : ℝ := Real.sqrt a.norm2

lemma Vec3.norm2_nonneg (a : Vec3) : 0 ≤ a.norm2 := by
  unfold Vec3.norm2; positivity

lemma Vec3.norm2_smul (c : ℝ) (a : Vec3) : (c • a).norm2 = c ^ 2 * a.norm2 := by
  simp [Vec3.norm2]; ring

/-- The loop body of `force_capping`: rescale one particle's force to the cap
magnitude when its squared force exceeds the squared cap. -/
noncomputable def cap_single (force_cap : ℝ) (p : Particle) : Particle :=
  if p.force.norm2 > sqr force_cap then
    { p with force := (force_cap / Real.sqrt p.force.norm2) • p.force }
  else p

/-- `force_capping` from `forces.cpp`: when the configured cap is positive,
rescale every particle whose force magnitude exceeds the cap. -/
noncomputable def force_capping (particles : List Particle) (force_cap : ℝ) :
    List Particle :=
  if force_cap > 0 then particles.map (cap_single force_cap) else particles

lemma cap_single_pos {cap : ℝ} {p : Particle} (h : p.force.norm2 > sqr cap) :
    cap_single cap p =
      { p with force := (cap / Real.sqrt p.force.norm2) • p.force } := by
  unfold cap_single; rw [if_pos h]

lemma cap_single_neg {cap : ℝ} {p : Particle} (h : ¬ p.force.norm2 > sqr cap) :
    cap_single cap p = p := by
  unfold cap_single; rw [if_neg h]

lemma sqr_pos_of_pos {cap : ℝ} (hcap : 0 < cap) : 0 < sqr cap := by
  unfold sqr; positivity

lemma cap_single_norm2 {cap : ℝ} {p : Particle} (hcap : 0 < cap)
    (h : p.force.norm2 > sqr cap) : (cap_single cap p).force.norm2 = sqr cap := by
  have hn2pos : 0 < p.force.norm2 := lt_trans (sqr_pos_of_pos hcap) h
  rw [cap_single_pos h]
  show ((cap / Real.sqrt p.force.norm2) • p.force).norm2 = sqr cap
  rw [Vec3.norm2_smul, div_pow, Real.sq_sqrt p.force.norm2_nonneg,
    div_mul_cancel₀ _ (ne_of_gt hn2pos)]
  unfold sqr; ring

lemma cap_single_idem {cap : ℝ} (hcap : 0 < cap) (p : Particle) :
    cap_single cap (cap_single cap p) = cap_single cap p := by
  by_cases h : p.force.norm2 > sqr cap
  · have h2 : ¬ (cap_single cap p).force.norm2 > sqr cap := by
      rw [cap_single_norm2 hcap h]; exact lt_irrefl _
    rw [cap_single_neg h2]
  · rw [cap_single_neg h, cap_single_neg h]

/-- **C2.** For a configured cap > 0, `force_capping` leaves a particle whose
force magnitude is at most the cap unchanged, and rescales a particle whose
force magnitude exceeds the cap so that afterwards its force magnitude is
exactly the cap and its force direction is unchanged (the new force is a
positive scalar multiple of the old one). -/
theorem force_capping_spec (ps : List Particle) (cap : ℝ) (hcap : 0 < cap)
    (i : ℕ) (p : Particle) (hp : ps[i]? = some p) :
    (p.force.norm ≤ cap → (force_capping ps cap)[i]? = some p) ∧
    (cap < p.force.norm →
      ∃ q, (force_capping ps cap)[i]? = some q ∧ q.force.norm = cap ∧
        ∃ c : ℝ, 0 < c ∧ q.force = c • p.force) := by
  have hmap : (force_capping ps cap)[i]? = some (cap_single cap p) := by
    simp [force_capping, if_pos hcap, List.getElem?_map, hp]
  have hs := Real.sq_sqrt p.force.norm2_nonneg
  have hnn := Real.sqrt_nonneg p.force.norm2
  constructor
  · intro hle
    have h2 : ¬ p.force.norm2 > sqr cap := by
      unfold Vec3.norm at hle
      simp only [sqr, not_lt]
      nlinarith
    rw [hmap, cap_single_neg h2]
  · intro hlt
    have h2 : p.force.norm2 > sqr cap := by
      unfold Vec3.norm at hlt
      simp only [sqr, gt_iff_lt]
      nlinarith
    have hn2pos : 0 < p.force.norm2 := lt_trans (sqr_pos_of_pos hcap) h2
    have hspos : 0 < Real.sqrt p.force.norm2 := Real.sqrt_pos.mpr hn2pos
    refine ⟨cap_single cap p, hmap, ?_, ?_⟩
    · have hcapn2 := cap_single_norm2 hcap h2
      unfold Vec3.norm
      rw [hcapn2]
      unfold sqr
      rw [show cap * cap = cap ^ 2 by ring, Real.sqrt_sq hcap.le]
    · exact ⟨cap / Real.sqrt p.force.norm2, div_pos hcap hspos,
        by rw [cap_single_pos h2]⟩

/-- A concrete particle whose force is `(3, 4, 0)` (magnitude 5). -/
def p34 : Particle where
  pos := 0
  v := 0
  force := ⟨3, 4, 0⟩
  torque := 0
  ext_force := 0
  ext_torque := 0
  swimming := false
  is_engine_force_on_fluid := false
  f_swim := 0
  director := 0
  ptype := 0

lemma p34_norm : p34.force.norm = 5 := by
  have h2 : p34.force.norm2 = 25 := by norm_num [p34, Vec3.norm2]
  unfold Vec3.norm
  rw [h2, show (25 : ℝ) = 5 ^ 2 by norm_num, Real.sqrt_sq (by norm_num)]

/-- Witness for C2 at cap 1 and a particle of force magnitude 5. -/
theorem force_capping_spec_witness :
    ∃ q, (force_capping [p34] 1)[0]? = some q ∧ q.force.norm = 1 ∧
      ∃ c : ℝ, 0 < c ∧ q.force = c • p34.force :=
  (force_capping_spec [p34] 1 one_pos 0 p34 rfl).2 (by rw [p34_norm]; norm_num)

/-- **C8.** `force_capping` is idempotent: applying it a second time to the
output of a first application changes nothing, for every cap value. -/
theorem force_capping_idempotent (ps : List Particle) (cap : ℝ) :
    force_capping (force_capping ps cap) cap = force_capping ps cap := by
  by_cases h : cap > 0
  · simp only [force_capping, if_pos h, List.map_map]
    exact List.map_congr_left (fun p _ => cap_single_idem h p)
  · simp [force_capping, if_neg h]

/-- **C9.** `force_capping` mutates only the translational force of particles
whose squared force exceeds the squared cap: every other particle field
(torque, position, velocity, external fields, swimming state, type) is
unchanged, a particle not exceeding the cap is entirely unchanged, and when
the cap is not positive no particle is modified at all. -/
theorem force_capping_frame (ps : List Particle) (cap : ℝ) :
    (cap ≤ 0 → force_capping ps cap = ps) ∧
    (force_capping ps cap).length = ps.length ∧
    (∀ (i : ℕ) (p : Particle), ps[i]? = some p →
      ∃ q, (force_capping ps cap)[i]? = some q ∧
      q.torque = p.torque ∧ q.pos = p.pos ∧ q.v = p.v ∧
      q.ext_force = p.ext_force ∧ q.ext_torque = p.ext_torque ∧
      q.swimming = p.swimming ∧
      q.is_engine_force_on_fluid = p.is_engine_force_on_fluid ∧
      q.f_swim = p.f_swim ∧ q.director = p.director ∧ q.ptype = p.ptype ∧
      (¬ p.force.norm2 > sqr cap → q = p)) := by
  refine ⟨?_, ?_, ?_⟩
  · intro h; simp [force_capping, not_lt.mpr h]
  · by_cases h : cap > 0 <;> simp [force_capping, h]
  · intro i p hp
    by_cases h : cap > 0
    · refine ⟨cap_single cap p,
        by simp [force_capping, if_pos h, List.getElem?_map, hp], ?_⟩
      by_cases h2 : p.force.norm2 > sqr cap
      · rw [cap_single_pos h2]
        exact ⟨rfl, rfl, rfl, rfl, rfl, rfl, rfl, rfl, rfl, rfl,
          fun hc => absurd h2 hc⟩
      · rw [cap_single_neg h2]
        exact ⟨rfl, rfl, rfl, rfl, rfl, rfl, rfl, rfl, rfl, rfl, fun _ => rfl⟩
    · refine ⟨p, by simp [force_capping, if_neg h, hp],
        rfl, rfl, rfl, rfl, rfl, rfl, rfl, rfl, rfl, rfl, fun _ => rfl⟩

/-- Witness for C9 at cap 5 and a particle of force magnitude exactly 5
(not exceeding the cap, hence unchanged). -/
theorem force_capping_frame_witness :
    ∃ q, (force_capping [p34] 5)[0]? = some q ∧
      q.torque = p34.torque ∧ q.pos = p34.pos ∧ q.v = p34.v ∧
      q.ext_force = p34.ext_force ∧ q.ext_torque = p34.ext_torque ∧
      q.swimming = p34.swimming ∧
      q.is_engine_force_on_fluid = p34.is_engine_force_on_fluid ∧
      q.f_swim = p34.f_swim ∧ q.director = p34.director ∧
      q.ptype = p34.ptype ∧
      (¬ p34.force.norm2 > sqr 5 → q = p34) :=
  (force_capping_frame [p34] 5).2.2 0 p34 rfl

lemma Vec3.zero_smul (a : Vec3) : (0 : ℝ) • a = 0 := by ext <;> simp

/-- The per-particle effect of `init_forces` on an owned particle. -/
noncomputable def seeded (p : Particle) : Particle :=
  { p with force := (external_force p).f, torque := (external_force p).torque }

/-- The per-particle effect of `init_forces_ghosts` on a ghost particle. -/
def ghost_cleared (g : Particle) : Particle :=
  { g with force := 0, torque := 0 }

lemma init_forces_fst (ps gs : List Particle) :
    (init_forces ps gs).1 = ps.map seeded := rfl

lemma init_forces_ghosts_eq (gs : List Particle) :
    init_forces_ghosts gs = gs.map ghost_cleared := rfl

/-- **C6.** `init_forces` sets every owned particle's accumulator to exactly
its per-particle external force and torque, the force additionally carrying
the swimming force along the director when the particle is a swimmer whose
engine force is not on the fluid; `init_forces_ghosts` sets every ghost
accumulator to exactly zero. -/
theorem init_forces_seeding (ps gs : List Particle) :
    (∀ (i : ℕ) (p : Particle), ps[i]? = some p →
      ∃ q, (init_forces ps gs).1[i]? = some q ∧
        q.force = p.ext_force +
          (if p.swimming && !p.is_engine_force_on_fluid
            then p.f_swim • p.director else 0) ∧
        q.torque = p.ext_torque) ∧
    (∀ (j : ℕ) (g : Particle), gs[j]? = some g →
      ∃ q, (init_forces_ghosts gs)[j]? = some q ∧
        q.force = 0 ∧ q.torque = 0) := by
  constructor
  · intro i p hp
    exact ⟨seeded p,
      by simp [init_forces_fst, List.getElem?_map, hp], rfl, rfl⟩
  · intro j g hg
    exact ⟨ghost_cleared g,
      by simp [init_forces_ghosts_eq, List.getElem?_map, hg], rfl, rfl⟩

/-- A concrete particle carrying a nonzero external force. -/
def pext : Particle where
  pos := 0
  v := 0
  force := 0
  torque := 0
  ext_force := ⟨1, 0, 0⟩
  ext_torque := 0
  swimming := false
  is_engine_force_on_fluid := false
  f_swim := 0
  director := 0
  ptype := 0

/-- Witness for C6 on concrete owned and ghost particles. -/
theorem init_forces_seeding_witness :
    (∃ q, (init_forces [pext] [p34]).1[0]? = some q ∧
      q.force = pext.ext_force +
        (if pext.swimming && !pext.is_engine_force_on_fluid
          then pext.f_swim • pext.director else 0) ∧
      q.torque = pext.ext_torque) ∧
    (∃ q, (init_forces_ghosts [p34])[0]? = some q ∧
      q.force = 0 ∧ q.torque = 0) :=
  ⟨(init_forces_seeding [pext] [p34]).1 0 pext rfl,
   (init_forces_seeding [pext] [p34]).2 0 p34 rfl⟩

/-- **C5 (counterexample).** The claim that immediately after accumulator
initialization every owned accumulator is zero is false: a particle with a
nonzero external force has a nonzero force accumulator right after
`init_forces`. -/
theorem init_forces_nonzero_counterexample :
    ∃ q, (init_forces [pext] []).1[0]? = some q ∧ q.force ≠ 0 := by
  refine ⟨seeded pext,
    by simp [init_forces_fst, List.getElem?_map], fun h => ?_⟩
  have hx := congrArg Vec3.x h
  norm_num [seeded, external_force, pext] at hx

/-- **C5 (amended).** Immediately after accumulator initialization every
ghost accumulator is zero, and an owned particle's accumulator is zero
provided the particle has zero external force, zero external torque and zero
swimming force (in general an owned accumulator is seeded with the external
contributions, not zeroed). -/
theorem init_forces_zero_amended (ps gs : List Particle) :
    (∀ q ∈ (init_forces ps gs).2, q.force = 0 ∧ q.torque = 0) ∧
    (∀ (i : ℕ) (p : Particle), ps[i]? = some p →
      p.ext_force = 0 → p.ext_torque = 0 → p.f_swim = 0 →
      ∃ q, (init_forces ps gs).1[i]? = some q ∧
        q.force = 0 ∧ q.torque = 0) := by
  constructor
  · intro q hq
    simp only [init_forces, init_forces_ghosts, List.mem_map] at hq
    obtain ⟨p, -, rfl⟩ := hq
    exact ⟨rfl, rfl⟩
  · intro i p hp hf ht hs
    refine ⟨seeded p,
      by simp [init_forces_fst, List.getElem?_map, hp], ?_, ?_⟩
    · show (external_force p).f = 0
      simp [external_force, hf, hs, Vec3.zero_smul]
    · exact ht

/-- Witness for the amended C5 on a particle with no external contributions
and a ghost with a nonzero stale accumulator. -/
theorem init_forces_zero_amended_witness :
    ∃ q, (init_forces [p34] [pext]).1[0]? = some q ∧
      q.force = 0 ∧ q.torque = 0 :=
  (init_forces_zero_amended [p34] [pext]).2 0 p34 rfl rfl rfl rfl

/-- The absolute noise threshold `1e-100` of the OIF global-force loop. -/
noncomputable def oif_threshold : ℝ := 1e-100

/-- The break condition of the OIF loop: the reduced area and the reduced
volume of object `i` are both below the noise threshold. -/
noncomputable def oif_degenerate (calc_oif_global : ℕ → ℝ × ℝ) (i : ℕ) : Prop :=
  |(calc_oif_global i).1| < oif_threshold ∧ |(calc_oif_global i).2| < oif_threshold

noncomputable instance oif_degenerate_dec (calc_oif_global : ℕ → ℝ × ℝ)
    (i : ℕ) : Decidable (oif_degenerate calc_oif_global i) := by
  unfold oif_degenerate; infer_instance

/-- The per-object OIF loop of `calculate_forces`: starting at object index
`i` with `n` indices remaining, return the list of object indices that
receive `add_oif_global_forces`.  A degenerate object terminates the loop
(the C++ loop executes `break`, not `continue`). -/
noncomputable def oif_global_loop (calc_oif_global : ℕ → ℝ × ℝ) : ℕ → ℕ → List ℕ
  | _, 0 => []
  | i, n + 1 =>
    if oif_degenerate calc_oif_global i then []
    else i :: oif_global_loop calc_oif_global (i + 1) n

/-- The object indices receiving `add_oif_global_forces` during one call of
`calculate_forces` with `max_oif_objects` configured objects. -/
noncomputable def oif_applied (calc_oif_global : ℕ → ℝ × ℝ)
    (max_oif_objects : ℕ) : List ℕ :=
  oif_global_loop calc_oif_global 0 max_oif_objects

lemma oif_global_loop_zero (calc_oif_global : ℕ → ℝ × ℝ) (i : ℕ) :
    oif_global_loop calc_oif_global i 0 = [] := rfl

lemma oif_global_loop_succ (calc_oif_global : ℕ → ℝ × ℝ) (i n : ℕ) :
    oif_global_loop calc_oif_global i (n + 1) =
      if oif_degenerate calc_oif_global i then []
      else i :: oif_global_loop calc_oif_global (i + 1) n := rfl

lemma oif_global_loop_mem (calc_oif_global : ℕ → ℝ × ℝ) :
    ∀ (n s i : ℕ), i ∈ oif_global_loop calc_oif_global s n ↔
      s ≤ i ∧ i < s + n ∧
        ∀ j, s ≤ j → j ≤ i → ¬ oif_degenerate calc_oif_global j := by
  intro n
  induction n with
  | zero =>
    intro s i
    rw [oif_global_loop_zero]
    constructor
    · intro h; exact absurd h (List.not_mem_nil i)
    · rintro ⟨h1, h2, -⟩; omega
  | succ n ih =>
    intro s i
    rw [oif_global_loop_succ]
    by_cases hd : oif_degenerate calc_oif_global s
    · rw [if_pos hd]
      constructor
      · intro h; exact absurd h (List.not_mem_nil i)
      · rintro ⟨hsi, -, hall⟩; exact absurd hd (hall s le_rfl hsi)
    · rw [if_neg hd]
      simp only [List.mem_cons, ih (s + 1) i]
      constructor
      · rintro (rfl | ⟨h1, h2, h3⟩)
        · refine ⟨le_rfl, by omega, fun j hj1 hj2 => ?_⟩
          have : j = i := le_antisymm hj2 hj1
          rwa [this]
        · refine ⟨by omega, by omega, fun j hj1 hj2 => ?_⟩
          by_cases hjs : j = s
          · rwa [hjs]
          · exact h3 j (by omega) hj2
      · rintro ⟨h1, h2, h3⟩
        by_cases his : i = s
        · exact Or.inl his
        · exact Or.inr ⟨by omega, by omega, fun j hj1 hj2 => h3 j (by omega) hj2⟩

/-- A concrete reduced-quantity function: object 1 is degenerate (both
reduced quantities zero), every other object has quantities well above the
threshold. -/
noncomputable def oifCex : ℕ → ℝ × ℝ := fun i => if i = 1 then (0, 0) else (1, 1)

/-- **C3 (counterexample).** With three configured objects of which only the
middle one is degenerate, the loop applies the global-force contribution to
object 0 only: object 2 has both reduced quantities above the threshold yet
receives no contribution, because the degenerate object 1 terminates the
loop (`break`) instead of being skipped. -/
theorem oif_skip_counterexample :
    oif_applied oifCex 3 = [0] ∧ ¬ oif_degenerate oifCex 2 ∧
      2 ∉ oif_applied oifCex 3 := by
  have h0 : ¬ oif_degenerate oifCex 0 := by
    norm_num [oif_degenerate, oifCex, oif_threshold]
  have h1 : oif_degenerate oifCex 1 := by
    norm_num [oif_degenerate, oifCex, oif_threshold]
  have h2 : ¬ oif_degenerate oifCex 2 := by
    norm_num [oif_degenerate, oifCex, oif_threshold]
  have e0 : oif_applied oifCex 3 = [0] := by
    unfold oif_applied
    rw [show (3 : ℕ) = 2 + 1 by norm_num, oif_global_loop_succ, if_neg h0,
      show (2 : ℕ) = 1 + 1 by norm_num, oif_global_loop_succ, if_pos h1]
  exact ⟨e0, h2, by rw [e0]; simp⟩

/-- **C3 (amended).** An object with both reduced quantities below the noise
threshold terminates the per-object loop: the global-force contribution is
applied to exactly those objects `i` below the configured maximum such that
no object `j ≤ i` is degenerate — the first degenerate object and every
later object are skipped (without error), regardless of the later objects'
quantities. -/
theorem oif_loop_break_characterization (calc_oif_global : ℕ → ℝ × ℝ)
    (m i : ℕ) :
    i ∈ oif_applied calc_oif_global m ↔
      i < m ∧ ∀ j, j ≤ i → ¬ oif_degenerate calc_oif_global j := by
  unfold oif_applied
  rw [oif_global_loop_mem calc_oif_global m 0 i]
  constructor
  · rintro ⟨-, h2, h3⟩
    exact ⟨by omega, fun j hj => h3 j (Nat.zero_le j) hj⟩
  · rintro ⟨h1, h2⟩
    exact ⟨Nat.zero_le i, by omega, fun j _ hj => h2 j hj⟩

/-- Witness for the amended C3: object 0 receives the contribution. -/
theorem oif_loop_break_characterization_witness :
    0 ∈ oif_applied oifCex 3 :=
  (oif_loop_break_characterization oifCex 3 0).mpr ⟨by norm_num, by
    intro j hj
    interval_cases j
    norm_num [oif_degenerate, oifCex, oif_threshold]⟩

/-- The successive stages of `System::calculate_forces`, in the order they
appear in `forces.cpp`. -/
inductive Stage where
  | GpuUpdate
  | CollisionPrepare
  | BondBreakageClear
  | IccIteration
  | NptResetVirials
  | InitForcesStage
  | ThermostatForceInit
  | CalcLongRangeForces
  | ShortRangeLoop
  | ConstraintForces
  | OifGlobalForces
  | IBVolumeConservation
  | LbCoupling
  | GpuCopyForces
  | VsBackTransfer
  | GhostsReduceForces
  | ComFixedApply
  | ForceCappingStage
  | ClearRecalcForces
  deriving DecidableEq

/-- The compile-time features and runtime conditions that gate optional
stages of `calculate_forces`. -/
structure Config where
  cuda : Bool
  collision_detection : Bool
  icc_enabled : Bool
  npt : Bool
  lb_solver_set : Bool
  vs_relative_used : Bool

/-- The stage sequence executed by one call of `System::calculate_forces`,
with each conditionally-compiled or runtime-gated stage present exactly when
its gate in `forces.cpp` is active. -/
def calculate_forces_trace (cfg : Config) : List Stage :=
  (if cfg.cuda then [Stage.GpuUpdate] else []) ++
  (if cfg.collision_detection then [Stage.CollisionPrepare] else []) ++
  [Stage.BondBreakageClear] ++
  (if cfg.icc_enabled then [Stage.IccIteration] else []) ++
  (if cfg.npt then [Stage.NptResetVirials] else []) ++
  [Stage.InitForcesStage, Stage.ThermostatForceInit, Stage.CalcLongRangeForces,
   Stage.ShortRangeLoop, Stage.ConstraintForces, Stage.OifGlobalForces,
   Stage.IBVolumeConservation] ++
  (if cfg.lb_solver_set then [Stage.LbCoupling] else []) ++
  (if cfg.cuda then [Stage.GpuCopyForces] else []) ++
  (if cfg.vs_relative_used then [Stage.VsBackTransfer] else []) ++
  [Stage.GhostsReduceForces, Stage.ComFixedApply, Stage.ForceCappingStage,
   Stage.ClearRecalcForces]

/-- `a` occurs strictly before `b` in the list `l`. -/
def occursBefore (a b : Stage) (l : List Stage) : Prop :=
  ∃ l1 l2 l3, l = l1 ++ a :: (l2 ++ b :: l3)

/-- **C4.** In every execution of `calculate_forces`, the tail of the
pipeline is ordered: the virtual-site back-transfer (when active) precedes
ghost force reduction, ghost force reduction precedes the center-of-mass
net-force correction, the correction precedes force capping, and capping is
followed only by clearing the `recalc_forces` flag. -/
theorem pipeline_tail_order (cfg : Config) :
    (cfg.vs_relative_used = true →
      occursBefore Stage.VsBackTransfer Stage.GhostsReduceForces
        (calculate_forces_trace cfg)) ∧
    occursBefore Stage.GhostsReduceForces Stage.ComFixedApply
      (calculate_forces_trace cfg) ∧
    occursBefore Stage.ComFixedApply Stage.ForceCappingStage
      (calculate_forces_trace cfg) ∧
    ∃ pre, calculate_forces_trace cfg =
      pre ++ [Stage.ForceCappingStage, Stage.ClearRecalcForces] := by
  refine ⟨?_, ?_, ?_, ?_⟩
  · intro hvs
    refine ⟨(if cfg.cuda then [Stage.GpuUpdate] else []) ++
      (if cfg.collision_detection then [Stage.CollisionPrepare] else []) ++
      [Stage.BondBreakageClear] ++
      (if cfg.icc_enabled then [Stage.IccIteration] else []) ++
      (if cfg.npt then [Stage.NptResetVirials] else []) ++
      [Stage.InitForcesStage, Stage.ThermostatForceInit,
       Stage.CalcLongRangeForces, Stage.ShortRangeLoop,
       Stage.ConstraintForces, Stage.OifGlobalForces,
       Stage.IBVolumeConservation] ++
      (if cfg.lb_solver_set then [Stage.LbCoupling] else []) ++
      (if cfg.cuda then [Stage.GpuCopyForces] else []), [],
      [Stage.ComFixedApply, Stage.ForceCappingStage,
       Stage.ClearRecalcForces], ?_⟩
    simp [calculate_forces_trace, hvs, List.append_assoc]
  · refine ⟨(if cfg.cuda then [Stage.GpuUpdate] else []) ++
      (if cfg.collision_detection then [Stage.CollisionPrepare] else []) ++
      [Stage.BondBreakageClear] ++
      (if cfg.icc_enabled then [Stage.IccIteration] else []) ++
      (if cfg.npt then [Stage.NptResetVirials] else []) ++
      [Stage.InitForcesStage, Stage.ThermostatForceInit,
       Stage.CalcLongRangeForces, Stage.ShortRangeLoop,
       Stage.ConstraintForces, Stage.OifGlobalForces,
       Stage.IBVolumeConservation] ++
      (if cfg.lb_solver_set then [Stage.LbCoupling] else []) ++
      (if cfg.cuda then [Stage.GpuCopyForces] else []) ++
      (if cfg.vs_relative_used then [Stage.VsBackTransfer] else []), [],
      [Stage.ForceCappingStage, Stage.ClearRecalcForces], ?_⟩
    simp [calculate_forces_trace, List.append_assoc]
  · refine ⟨(if cfg.cuda then [Stage.GpuUpdate] else []) ++
      (if cfg.collision_detection then [Stage.CollisionPrepare] else []) ++
      [Stage.BondBreakageClear] ++
      (if cfg.icc_enabled then [Stage.IccIteration] else []) ++
      (if cfg.npt then [Stage.NptResetVirials] else []) ++
      [Stage.InitForcesStage, Stage.ThermostatForceInit,
       Stage.CalcLongRangeForces, Stage.ShortRangeLoop,
       Stage.ConstraintForces, Stage.OifGlobalForces,
       Stage.IBVolumeConservation] ++
      (if cfg.lb_solver_set then [Stage.LbCoupling] else []) ++
      (if cfg.cuda then [Stage.GpuCopyForces] else []) ++
      (if cfg.vs_relative_used then [Stage.VsBackTransfer] else []) ++
      [Stage.GhostsReduceForces], [], [Stage.ClearRecalcForces], ?_⟩
    simp [calculate_forces_trace, List.append_assoc]
  · refine ⟨(if cfg.cuda then [Stage.GpuUpdate] else []) ++
      (if cfg.collision_detection then [Stage.CollisionPrepare] else []) ++
      [Stage.BondBreakageClear] ++
      (if cfg.icc_enabled then [Stage.IccIteration] else []) ++
      (if cfg.npt then [Stage.NptResetVirials] else []) ++
      [Stage.InitForcesStage, Stage.ThermostatForceInit,
       Stage.CalcLongRangeForces, Stage.ShortRangeLoop,
       Stage.ConstraintForces, Stage.OifGlobalForces,
       Stage.IBVolumeConservation] ++
      (if cfg.lb_solver_set then [Stage.LbCoupling] else []) ++
      (if cfg.cuda then [Stage.GpuCopyForces] else []) ++
      (if cfg.vs_relative_used then [Stage.VsBackTransfer] else []) ++
      [Stage.GhostsReduceForces, Stage.ComFixedApply], ?_⟩
    simp [calculate_forces_trace, List.append_assoc]

/-- Witness for C4 on the configuration with every optional stage active. -/
theorem pipeline_tail_order_witness :
    occursBefore Stage.VsBackTransfer Stage.GhostsReduceForces
      (calculate_forces_trace ⟨true, true, true, true, true, true⟩) ∧
    occursBefore Stage.GhostsReduceForces Stage.ComFixedApply
      (calculate_forces_trace ⟨true, true, true, true, true, true⟩) :=
  ⟨(pipeline_tail_order ⟨true, true, true, true, true, true⟩).1 rfl,
   (pipeline_tail_order ⟨true, true, true, true, true, true⟩).2.1⟩

/-- Modelled from the spec: the `VerletCriterion` implementation
(`nonbonded_interactions/VerletCriterion.hpp`) is not part of the sources;
per spec §4.2 the effective list-validity cutoff is the maximum of the
Verlet skin and all enabled feature cutoffs, where a cutoff whose feature is
disabled (the inactive sentinel, modelled as `none`) participates in the max
only when the feature is enabled. -/
def effective_cutoff (skin : ℝ) : List (Option ℝ) → ℝ
  | [] => skin
  | none :: rest => effective_cutoff skin rest
  | some c :: rest => max c (effective_cutoff skin rest)

lemma effective_cutoff_cons_some (skin r : ℝ) (rest : List (Option ℝ)) :
    effective_cutoff skin (some r :: rest) =
      max r (effective_cutoff skin rest) := rfl

lemma effective_cutoff_skin_le (skin : ℝ) :
    ∀ cutoffs : List (Option ℝ), skin ≤ effective_cutoff skin cutoffs := by
  intro cutoffs
  induction cutoffs with
  | nil => exact le_rfl
  | cons c rest ih =>
    cases c with
    | none => exact ih
    | some r => exact le_trans ih (le_max_right r _)

lemma effective_cutoff_drop_none (skin : ℝ) :
    ∀ (pre post : List (Option ℝ)),
      effective_cutoff skin (pre ++ none :: post) =
        effective_cutoff skin (pre ++ post) := by
  intro pre post
  induction pre with
  | nil => rfl
  | cons c rest ih =>
    cases c with
    | none => simpa [effective_cutoff] using ih
    | some r => simp [effective_cutoff, ih]

/-- **C7.** The effective pair-list validity cutoff is the maximum of the
Verlet skin and all enabled feature cutoffs: the skin and each enabled
cutoff bound it from below, it is attained by the skin or by one of the
enabled cutoffs, and a disabled (inactive-sentinel) cutoff never decreases —
indeed never changes — the maximum, for any combination of enabled
features. -/
theorem effective_cutoff_max (skin : ℝ) (cutoffs : List (Option ℝ)) :
    skin ≤ effective_cutoff skin cutoffs ∧
    (∀ c : ℝ, some c ∈ cutoffs → c ≤ effective_cutoff skin cutoffs) ∧
    (effective_cutoff skin cutoffs = skin ∨
      ∃ c : ℝ, some c ∈ cutoffs ∧ effective_cutoff skin cutoffs = c) ∧
    (∀ pre post : List (Option ℝ), cutoffs = pre ++ none :: post →
      effective_cutoff skin cutoffs = effective_cutoff skin (pre ++ post)) := by
  refine ⟨effective_cutoff_skin_le skin cutoffs, ?_, ?_, ?_⟩
  · intro c hc
    induction cutoffs with
    | nil => exact absurd hc (List.not_mem_nil _)
    | cons d rest ih =>
      rcases List.mem_cons.mp hc with h | h
      · rw [← h]
        exact le_max_left c _
      · cases d with
        | none => exact ih h
        | some r => exact le_trans (ih h) (le_max_right r _)
  · induction cutoffs with
    | nil => exact Or.inl rfl
    | cons d rest ih =>
      cases d with
      | none =>
        rcases ih with h | ⟨c, hc, he⟩
        · exact Or.inl h
        · exact Or.inr ⟨c, List.mem_cons_of_mem _ hc, he⟩
      | some r =>
        rcases le_total r (effective_cutoff skin rest) with h | h
        · rcases ih with he | ⟨c, hc, he⟩
          · exact Or.inl
              (by rw [effective_cutoff_cons_some, max_eq_right h, he])
          · exact Or.inr ⟨c, List.mem_cons_of_mem _ hc,
              by rw [effective_cutoff_cons_some, max_eq_right h, he]⟩
        · exact Or.inr ⟨r, List.mem_cons_self _ _,
            by rw [effective_cutoff_cons_some, max_eq_left h]⟩
  · intro pre post hsplit
    rw [hsplit]
    exact effective_cutoff_drop_none skin pre post

/-- Witness for C7: skin 1, cutoffs range 2, electrostatics disabled,
magnetic 5, collision 0 — the disabled slot does not change the maximum and
the enabled cutoff 5 bounds it. -/
theorem effective_cutoff_max_witness :
    effective_cutoff 1 [some 2, none, some 5, some 0] =
      effective_cutoff 1 [some 2, some 5, some 0] ∧
    (5 : ℝ) ≤ effective_cutoff 1 [some 2, none, some 5, some 0] :=
  ⟨(effective_cutoff_max 1 [some 2, none, some 5, some 0]).2.2.2
      [some 2] [some 5, some 0] rfl,
   (effective_cutoff_max 1 [some 2, none, some 5, some 0]).2.1 5 (by simp)⟩

/-- Return status of a parameter setter (`ES_OK` / `ES_ERROR`). -/
inductive ESRetval where
  | ES_OK
  | ES_ERROR
  deriving DecidableEq

/-- The Gay-Berne block of an `IA_parameters` record (`gb.hpp`). -/
structure GBParams where
  eps : ℝ
  sig : ℝ
  cut : ℝ
  k1 : ℝ
  k2 : ℝ
  mu : ℝ
  nu : ℝ
  chi1 : ℝ
  chi2 : ℝ

/-- The record stored by a successful `gay_berne_set_params` call: the seven
given parameters plus the dependent parameters `chi1` and `chi2`. -/
noncomputable def gbStored (eps sig cut k1 k2 mu nu : ℝ) : GBParams :=
  { eps := eps, sig := sig, cut := cut, k1 := k1, k2 := k2,
    mu := mu, nu := nu,
    chi1 := ((k1 * k1) - 1) / ((k1 * k1) + 1),
    chi2 := (k2 ^ ((1 : ℝ) / mu) - 1) / (k2 ^ ((1 : ℝ) / mu) + 1) }

/-- `gay_berne_set_params` from `gb.cpp`.  The `get_ia_param_safe` lookup is
modelled as an opaque fallible table keyed by the ordered type pair: on
lookup failure the function returns `ES_ERROR` without touching the table;
otherwise it stores the seven given parameters together with the dependent
parameters `chi1` and `chi2` and returns `ES_OK`. -/
noncomputable def gay_berne_set_params (ia : ℕ → ℕ → Option GBParams)
    (part_type_a part_type_b : ℕ)
    (eps sig cut k1 k2 mu nu : ℝ) :
    ESRetval × (ℕ → ℕ → Option GBParams) :=
  match ia part_type_a part_type_b with
  | none => (ESRetval.ES_ERROR, ia)
  | some _ =>
    (ESRetval.ES_OK, fun a b =>
      if a = part_type_a ∧ b = part_type_b then
        some (gbStored eps sig cut k1 k2 mu nu)
      else ia a b)

/-- **C10.** `gay_berne_set_params` returns `ES_ERROR` and modifies no
interaction parameters when the record lookup for the ordered type pair
fails; otherwise it stores the seven given Gay-Berne parameters for that
pair (leaving every other pair untouched), sets the dependent parameters
`chi1 = (k1² − 1)/(k1² + 1)` and `chi2 = (k2^(1/µ) − 1)/(k2^(1/µ) + 1)`, and
returns `ES_OK`. -/
theorem gay_berne_set_params_spec (ia : ℕ → ℕ → Option GBParams)
    (a b : ℕ) (eps sig cut k1 k2 mu nu : ℝ) :
    (ia a b = none →
      gay_berne_set_params ia a b eps sig cut k1 k2 mu nu =
        (ESRetval.ES_ERROR, ia)) ∧
    (∀ d, ia a b = some d →
      (gay_berne_set_params ia a b eps sig cut k1 k2 mu nu).1 =
          ESRetval.ES_OK ∧
      (∃ g, (gay_berne_set_params ia a b eps sig cut k1 k2 mu nu).2 a b =
          some g ∧
        g.eps = eps ∧ g.sig = sig ∧ g.cut = cut ∧ g.k1 = k1 ∧ g.k2 = k2 ∧
        g.mu = mu ∧ g.nu = nu ∧
        g.chi1 = ((k1 * k1) - 1) / ((k1 * k1) + 1) ∧
        g.chi2 = (k2 ^ ((1 : ℝ) / mu) - 1) / (k2 ^ ((1 : ℝ) / mu) + 1)) ∧
      (∀ a' b' : ℕ, ¬ (a' = a ∧ b' = b) →
        (gay_berne_set_params ia a b eps sig cut k1 k2 mu nu).2 a' b' =
          ia a' b')) := by
  constructor
  · intro h
    unfold gay_berne_set_params
    rw [h]
  · intro d hd
    unfold gay_berne_set_params
    rw [hd]
    refine ⟨rfl, ⟨gbStored eps sig cut k1 k2 mu nu, by simp,
      rfl, rfl, rfl, rfl, rfl, rfl, rfl, rfl, rfl⟩, ?_⟩
    intro a' b' hne
    simp [if_neg hne]

/-- A one-entry interaction table holding a Gay-Berne record at `(0, 1)`. -/
noncomputable def iaEx : ℕ → ℕ → Option GBParams :=
  fun a b => if a = 0 ∧ b = 1 then some ⟨0, 0, 0, 0, 0, 0, 0, 0, 0⟩ else none

/-- Witness for C10: the setter fails without modification on the missing
pair `(1, 0)` and succeeds with the stored parameters on the pair `(0, 1)`. -/
theorem gay_berne_set_params_spec_witness :
    (gay_berne_set_params iaEx 1 0 1 2 3 4 5 6 7 =
      (ESRetval.ES_ERROR, iaEx)) ∧
    ((gay_berne_set_params iaEx 0 1 1 2 3 4 5 6 7).1 = ESRetval.ES_OK) :=
  ⟨(gay_berne_set_params_spec iaEx 1 0 1 2 3 4 5 6 7).1 (by simp [iaEx]),
   ((gay_berne_set_params_spec iaEx 0 1 1 2 3 4 5 6 7).2
      ⟨0, 0, 0, 0, 0, 0, 0, 0, 0⟩ (by simp [iaEx])).1⟩

/-- A local accumulator record: the owning particle's global id together
with the force/torque accumulated on this copy. -/
abbrev AccumEntry := ℕ × ParticleForce

/-- The per-process force state: the authoritative (local) particle records
and the ghost records. -/
abbrev ForceState := List AccumEntry × List AccumEntry

/-- The copy a force contribution is written into: the authoritative record
at position `k` of the local list, or the ghost record at position `j` of
the ghost list. -/
inductive ContribTarget where
  | auth (k : ℕ)
  | ghost (j : ℕ)

/-- One physical force contribution: the copy it is written into and the
force/torque delta. -/
abbrev Contribution := ContribTarget × ParticleForce

/-- Add `d` into the accumulator of the record at position `j` (a no-op when
`j` is out of range). -/
def addAt (l : List AccumEntry) (j : ℕ) (d : ParticleForce) :
    List AccumEntry :=
  match l[j]? with
  | some e => l.set j (e.1, e.2 + d)
  | none => l

/-- Write one contribution into the targeted accumulator. -/
def deliver (st : ForceState) (c : Contribution) : ForceState :=
  match c.1 with
  | ContribTarget.auth k => (addAt st.1 k c.2, st.2)
  | ContribTarget.ghost j => (st.1, addAt st.2 j c.2)

/-- Write a whole list of contributions, in order. -/
def deliverAll (st : ForceState) (cs : List Contribution) : ForceState :=
  cs.foldl deliver st

/-- The sum of the accumulators of all ghost records owned by `id`. -/
def ownedSum (id : ℕ) : List AccumEntry → ParticleForce
  | [] => 0
  | g :: gs => (if g.1 = id then g.2 else 0) + ownedSum id gs

/-- Modelled from the spec: `CellStructure::ghosts_reduce_forces` is not
part of the sources (`cell_system/CellStructure.hpp` is absent); per spec
§4.4 the communication step adds, for every ghost particle, its accumulated
force/torque into the authoritative copy on the owning process and then
zeroes the ghost's accumulator. -/
def ghosts_reduce_forces (auth ghosts : List AccumEntry) : ForceState :=
  (auth.map (fun a => (a.1, a.2 + ownedSum a.1 ghosts)),
   ghosts.map (fun g => (g.1, 0)))

/-- Whether a contribution written to the given target is credited to the
particle stored at authoritative position `k` with id `id`, given the list
of ghost owners. -/
def creditsTo (owners : List ℕ) (k id : ℕ) : ContribTarget → Bool
  | ContribTarget.auth k2 => decide (k2 = k)
  | ContribTarget.ghost j => decide (owners[j]? = some id)

/-- The sum of all contribution deltas credited to the particle at
authoritative position `k` with id `id`. -/
def contribSum (owners : List ℕ) (k id : ℕ) : List Contribution → ParticleForce
  | [] => 0
  | c :: cs =>
    (if creditsTo owners k id c.1 then c.2 else 0) + contribSum owners k id cs

/-- The accumulator of the record at position `k` (zero when out of range). -/
def authAcc (l : List AccumEntry) (k : ℕ) : ParticleForce :=
  match l[k]? with
  | some a => a.2
  | none => 0

/-- The running total credited to the particle at authoritative position `k`
with id `id`: its authoritative accumulator plus the accumulators of all its
ghost copies. -/
def credit (st : ForceState) (k id : ℕ) : ParticleForce :=
  authAcc st.1 k + ownedSum id st.2

lemma addAt_nil (j : ℕ) (d : ParticleForce) : addAt [] j d = [] := rfl

lemma addAt_cons_succ (e : AccumEntry) (es : List AccumEntry) (j : ℕ)
    (d : ParticleForce) : addAt (e :: es) (j + 1) d = e :: addAt es j d := by
  unfold addAt
  cases h : es[j]? <;> simp [h, List.set]

lemma addAt_length (l : List AccumEntry) (j : ℕ) (d : ParticleForce) :
    (addAt l j d).length = l.length := by
  unfold addAt
  cases h : l[j]? <;> simp

lemma addAt_map_fst (l : List AccumEntry) (j : ℕ) (d : ParticleForce) :
    (addAt l j d).map Prod.fst = l.map Prod.fst := by
  induction l generalizing j with
  | nil => rfl
  | cons e es ih =>
    cases j with
    | zero =>
      show (addAt (e :: es) 0 d).map Prod.fst = _
      unfold addAt
      simp [List.set]
    | succ j => simp [addAt_cons_succ, ih]

lemma addAt_getElem_ne (l : List AccumEntry) (j : ℕ) (d : ParticleForce)
    (k : ℕ) (h : k ≠ j) : (addAt l j d)[k]? = l[k]? := by
  unfold addAt
  cases he : l[j]? with
  | none => rfl
  | some e => exact List.getElem?_set_ne (fun hj => h hj.symm)

lemma addAt_getElem_eq (l : List AccumEntry) (j : ℕ) (d : ParticleForce) :
    (addAt l j d)[j]? = l[j]?.map (fun e => (e.1, e.2 + d)) := by
  unfold addAt
  cases he : l[j]? with
  | none => simp [he]
  | some e =>
    have hj : j < l.length := by
      rcases List.getElem?_eq_some_iff.mp he with ⟨h, -⟩
      exact h
    rw [List.getElem?_set_self (by exact hj)]
    simp [he]

lemma authAcc_addAt (l : List AccumEntry) (j : ℕ) (d : ParticleForce)
    (k : ℕ) (hk : k < l.length) :
    authAcc (addAt l j d) k = authAcc l k + (if j = k then d else 0) := by
  by_cases h : j = k
  · subst h
    unfold authAcc
    rw [addAt_getElem_eq]
    rw [List.getElem?_eq_getElem hk]
    simp
  · unfold authAcc
    rw [addAt_getElem_ne l j d k (fun he => h he.symm), if_neg h, add_zero]

lemma ownedSum_addAt (id : ℕ) (l : List AccumEntry) (j : ℕ)
    (d : ParticleForce) :
    ownedSum id (addAt l j d) =
      ownedSum id l + (if (l.map Prod.fst)[j]? = some id then d else 0) := by
  induction l generalizing j with
  | nil => simp [addAt_nil, ownedSum]
  | cons e es ih =>
    cases j with
    | zero =>
      show ownedSum id (addAt (e :: es) 0 d) = _
      unfold addAt
      simp only [List.getElem?_cons_zero, List.set]
      show (if e.1 = id then e.2 + d else 0) + ownedSum id es = _
      simp only [ownedSum, List.map_cons, List.getElem?_cons_zero,
        Option.some_inj]
      by_cases h : e.1 = id
      · rw [if_pos h, if_pos h, if_pos h]
        abel
      · rw [if_neg h, if_neg h, if_neg h]
        abel
    | succ j =>
      rw [addAt_cons_succ]
      show (if e.1 = id then e.2 else 0) + ownedSum id (addAt es j d) = _
      rw [ih]
      show _ = (if e.1 = id then e.2 else 0) + ownedSum id es +
        (if ((e :: es).map Prod.fst)[j + 1]? = some id then d else 0)
      simp only [List.map_cons, List.getElem?_cons_succ]
      abel

lemma ownedSum_of_zero (id : ℕ) (l : List AccumEntry)
    (h : ∀ g ∈ l, g.2 = 0) : ownedSum id l = 0 := by
  induction l with
  | nil => rfl
  | cons e es ih =>
    show (if e.1 = id then e.2 else 0) + ownedSum id es = 0
    rw [h e (List.mem_cons_self e es), ih (fun g hg => h g (List.mem_cons_of_mem e hg))]
    simp

lemma deliver_fst_length (st : ForceState) (c : Contribution) :
    (deliver st c).1.length = st.1.length := by
  obtain ⟨t, d⟩ := c
  cases t <;> simp [deliver, addAt_length]

lemma deliver_fst_map_fst (st : ForceState) (c : Contribution) :
    (deliver st c).1.map Prod.fst = st.1.map Prod.fst := by
  obtain ⟨t, d⟩ := c
  cases t <;> simp [deliver, addAt_map_fst]

lemma deliver_snd_map_fst (st : ForceState) (c : Contribution) :
    (deliver st c).2.map Prod.fst = st.2.map Prod.fst := by
  obtain ⟨t, d⟩ := c
  cases t <;> simp [deliver, addAt_map_fst]

lemma credit_deliver (st : ForceState) (c : Contribution) (k id : ℕ)
    (hk : k < st.1.length) :
    credit (deliver st c) k id =
      credit st k id +
        (if creditsTo (st.2.map Prod.fst) k id c.1 then c.2 else 0) := by
  obtain ⟨t, d⟩ := c
  cases t with
  | auth k2 =>
    show credit (addAt st.1 k2 d, st.2) k id = _
    unfold credit
    show authAcc (addAt st.1 k2 d) k + ownedSum id st.2 = _
    rw [authAcc_addAt st.1 k2 d k hk]
    simp only [creditsTo, decide_eq_true_eq]
    abel
  | ghost j =>
    show credit (st.1, addAt st.2 j d) k id = _
    unfold credit
    show authAcc st.1 k + ownedSum id (addAt st.2 j d) = _
    rw [ownedSum_addAt]
    simp only [creditsTo, decide_eq_true_eq]
    abel

lemma credit_deliverAll (cs : List Contribution) :
    ∀ (st : ForceState) (k id : ℕ), k < st.1.length →
      credit (deliverAll st cs) k id =
        credit st k id + contribSum (st.2.map Prod.fst) k id cs := by
  induction cs with
  | nil =>
    intro st k id hk
    show credit st k id = credit st k id + contribSum _ k id []
    rw [show contribSum (st.2.map Prod.fst) k id [] = 0 from rfl, add_zero]
  | cons c cs ih =>
    intro st k id hk
    show credit (deliverAll (deliver st c) cs) k id = _
    rw [ih (deliver st c) k id (by rw [deliver_fst_length]; exact hk)]
    rw [credit_deliver st c k id hk, deliver_snd_map_fst]
    show _ = credit st k id +
      ((if creditsTo (st.2.map Prod.fst) k id c.1 then c.2 else 0) +
        contribSum (st.2.map Prod.fst) k id cs)
    rw [add_assoc]

lemma deliverAll_fst_length (cs : List Contribution) :
    ∀ st : ForceState, (deliverAll st cs).1.length = st.1.length := by
  induction cs with
  | nil => intro st; rfl
  | cons c cs ih =>
    intro st
    show (deliverAll (deliver st c) cs).1.length = _
    rw [ih, deliver_fst_length]

lemma deliverAll_fst_map_fst (cs : List Contribution) :
    ∀ st : ForceState, (deliverAll st cs).1.map Prod.fst = st.1.map Prod.fst := by
  induction cs with
  | nil => intro st; rfl
  | cons c cs ih =>
    intro st
    show (deliverAll (deliver st c) cs).1.map Prod.fst = _
    rw [ih, deliver_fst_map_fst]

lemma deliverAll_snd_map_fst (cs : List Contribution) :
    ∀ st : ForceState, (deliverAll st cs).2.map Prod.fst = st.2.map Prod.fst := by
  induction cs with
  | nil => intro st; rfl
  | cons c cs ih =>
    intro st
    show (deliverAll (deliver st c) cs).2.map Prod.fst = _
    rw [ih, deliver_snd_map_fst]

/-- **C1.** Starting from zeroed ghost accumulators, after an arbitrary list
of contributions has been written — each into either the authoritative copy
or some ghost copy, each exactly once — the reduction step leaves every
ghost accumulator zero, and every authoritative particle's accumulator
equals its initial (seeded) value plus the sum of exactly the contributions
in which that particle or any ghost copy of it participated. -/
theorem ghost_reduction_totals (auth ghosts : List AccumEntry)
    (cs : List Contribution) (hg0 : ∀ g ∈ ghosts, g.2 = 0)
    (k : ℕ) (a : AccumEntry) (ha : auth[k]? = some a) :
    (∀ g ∈ (ghosts_reduce_forces (deliverAll (auth, ghosts) cs).1
        (deliverAll (auth, ghosts) cs).2).2, g.2 = 0) ∧
    (ghosts_reduce_forces (deliverAll (auth, ghosts) cs).1
        (deliverAll (auth, ghosts) cs).2).1[k]? =
      some (a.1, a.2 + contribSum (ghosts.map Prod.fst) k a.1 cs) := by
  have hk : k < auth.length := by
    rcases List.getElem?_eq_some_iff.mp ha with ⟨h, -⟩
    exact h
  constructor
  · intro g hg
    simp only [ghosts_reduce_forces, List.mem_map] at hg
    obtain ⟨g0, -, rfl⟩ := hg
    rfl
  · have hk1 : k < (deliverAll (auth, ghosts) cs).1.length := by
      rw [deliverAll_fst_length]; exact hk
    obtain ⟨a2, ha2⟩ : ∃ a2, (deliverAll (auth, ghosts) cs).1[k]? = some a2 :=
      ⟨_, List.getElem?_eq_getElem hk1⟩
    have hid : a2.1 = a.1 := by
      have hmf := deliverAll_fst_map_fst cs (auth, ghosts)
      have h1 : ((deliverAll (auth, ghosts) cs).1.map Prod.fst)[k]? =
          (auth.map Prod.fst)[k]? := by rw [hmf]
      rw [List.getElem?_map, List.getElem?_map, ha2, ha] at h1
      exact Option.some_injective _ h1
    have hacc : authAcc (deliverAll (auth, ghosts) cs).1 k = a2.2 := by
      unfold authAcc; rw [ha2]
    have hcred := credit_deliverAll cs (auth, ghosts) k a.1 hk
    have hinit : credit (auth, ghosts) k a.1 = a.2 := by
      unfold credit authAcc
      show (match auth[k]? with | some e => e.2 | none => 0) +
        ownedSum a.1 ghosts = a.2
      rw [ha, ownedSum_of_zero a.1 ghosts hg0, add_zero]
    simp only [ghosts_reduce_forces, List.getElem?_map, ha2, Option.map_some']
    have heq : a2.2 + ownedSum a2.1 (deliverAll (auth, ghosts) cs).2 =
        a.2 + contribSum (ghosts.map Prod.fst) k a.1 cs := by
      rw [hid]
      rw [show a2.2 + ownedSum a.1 (deliverAll (auth, ghosts) cs).2 =
          credit (deliverAll (auth, ghosts) cs) k a.1 by
        unfold credit; rw [hacc]]
      rw [hcred, hinit]
    rw [heq, hid]

/-- A unit force along x, used as a seeded initial accumulator value. -/
def pfA : ParticleForce := ⟨⟨1, 0, 0⟩, 0⟩

/-- Two contributions for particle id 5: one written into its ghost copy at
position 0, one written into its authoritative copy at position 0. -/
def csEx : List Contribution :=
  [(ContribTarget.ghost 0, ⟨⟨2, 0, 0⟩, 0⟩), (ContribTarget.auth 0, ⟨⟨3, 0, 0⟩, 0⟩)]

/-- Witness for C1 on one authoritative particle (id 5) with one ghost copy
and one contribution written into each copy. -/
theorem ghost_reduction_totals_witness :
    (∀ g ∈ (ghosts_reduce_forces
        (deliverAll ([(5, pfA)], [(5, (0 : ParticleForce))]) csEx).1
        (deliverAll ([(5, pfA)], [(5, (0 : ParticleForce))]) csEx).2).2,
      g.2 = 0) ∧
    (ghosts_reduce_forces
        (deliverAll ([(5, pfA)], [(5, (0 : ParticleForce))]) csEx).1
        (deliverAll ([(5, pfA)], [(5, (0 : ParticleForce))]) csEx).2).1[0]? =
      some (5, pfA + contribSum ([(5, (0 : ParticleForce))].map Prod.fst)
        0 5 csEx) :=
  ghost_reduction_totals [(5, pfA)] [(5, (0 : ParticleForce))] csEx
    (by intro g hg; rw [List.mem_singleton] at hg; rw [hg])
    0 (5, pfA) rfl

end Espresso
